import Mathlib

/-!
Verification of the chunked image/label deserializer
(`Source/Readers/ImageReader/ImageDataDeserializer.cpp`).

The definitions below are a shallow embedding of that translation unit:
strings are `List Char`, machine integers are `Nat` with explicit
`% 2 ^ 64` where C overflow semantics matter, fallible code returns
`Except`, and the stateful index build is explicit state passing over
`BuildState`.  Parts of the repository that the translation unit uses but
whose sources are not available (the zip reader, a few constants from
headers, and the opaque OpenCV decode step) are modelled from the
specification and carry a doc comment saying so.
-/

namespace ImageDeserializer

/-- Strings are modelled as lists of characters so that every string
operation of the source reduces in the kernel. -/
abbrev Str := List Char

/-- Convert a Lean string literal to the `Str` representation. -/
def chars (s : String) : Str := s.toList

/-- Lookup in an association list; models `std::map::find` (only the
found/not-found outcome and the mapped value are observable). -/
def assocLookup {α β : Type} [DecidableEq α] : List (α × β) → α → Option β
  | [], _ => none
  | (k, v) :: rest, key => if k = key then some v else assocLookup rest key

/-- Overwrite-or-append on an association list; models assignment through
`std::map::operator[]`. -/
def assocSet {α β : Type} [DecidableEq α] : List (α × β) → α → β → List (α × β)
  | [], k, v => [(k, v)]
  | (k', v') :: rest, k, v =>
    if k' = k then (k, v) :: rest else (k', v') :: assocSet rest k v

/-- Read with a default; models `std::map::operator[]` on the read side
(the default is what a fresh value-initialized entry would hold). -/
def assocGetD {α β : Type} [DecidableEq α] (l : List (α × β)) (k : α) (d : β) : β :=
  match assocLookup l k with
  | some v => v
  | none => d

/-! ## Mapping-file line parsing (`CreateSequenceDescriptions`, lines 298-313) -/

/-- Split the remaining stream at the first tab, as
`std::getline(ss, tok, '\t')` does: the delimiter is consumed and
discarded. -/
def splitAtTab : Str → Str × Str
  | [] => ([], [])
  | c :: cs =>
    if c = '\t' then ([], cs)
    else
      let p := splitAtTab cs
      (c :: p.1, p.2)

/-- One `std::getline(ss, tok, '\t')` call: fails (returns `none`) exactly
when the stream has no characters left, otherwise yields the token and the
rest of the stream. -/
def getlineTab : Str → Option (Str × Str)
  | [] => none
  | c :: cs => some (splitAtTab (c :: cs))

/-- Decimal digits of a natural number, least significant digit handled by
the recursion; used for `std::to_string(lineIndex)`. -/
def natToCharsAux : Nat → Nat → List Char → List Char
  | 0, _, acc => acc
  | fuel + 1, n, acc =>
    let d := Char.ofNat (48 + n % 10)
    if n < 10 then d :: acc
    else natToCharsAux fuel (n / 10) (d :: acc)

/-- Model of `std::to_string` on an unsigned value. -/
def natToChars (n : Nat) : Str := natToCharsAux (n + 1) n []

/-- Errors raised by the index build (`RuntimeError` calls in
`CreateSequenceDescriptions` and `RegisterByteReader`). -/
inductive BuildError where
  | invalidFormat (lineIndex : Nat)
  | cannotParseLabel (lineIndex : Nat)
  | invalidClassId (lineIndex : Nat) (cid : Nat)
  | maxChunksExceeded
  | unsupportedContainerFormat
deriving DecidableEq, Repr

/-- The three string fields extracted from one mapping-file line. -/
structure ParsedLine where
  sequenceKey : Str
  imagePath : Str
  classId : Str
deriving DecidableEq, Repr

/-- Column splitting of one mapping-file line (lines 300-313 of the
source): three tab-separated fields, or the legacy two-field format where
the key defaults to the line number; fewer than two fields is a format
error. -/
def parseLine (lineIndex : Nat) (line : Str) : Except BuildError ParsedLine :=
  match getlineTab line with
  | none => .error (.invalidFormat lineIndex)
  | some (k, r1) =>
    match getlineTab r1 with
    | none => .error (.invalidFormat lineIndex)
    | some (p, r2) =>
      match getlineTab r2 with
      | none =>
        if p = [] ∨ k = [] then .error (.invalidFormat lineIndex)
        else .ok ⟨natToChars lineIndex, k, p⟩
      | some (c, _) => .ok ⟨k, p, c⟩

/-! ## `strtoull` (lines 321-325) -/

/-- Characters accepted by `isspace` in the C locale. -/
def isSpaceC (c : Char) : Bool :=
  c = ' ' ∨ c = '\t' ∨ c = '\n' ∨ c = '\x0b' ∨ c = '\x0c' ∨ c = '\r'

/-- Outcome of `strtoull(s, &eptr, 10)` with `errno` cleared beforehand:
the returned value, whether any digits were consumed (`eptr != s`), and
whether `errno` was set to `ERANGE`. -/
structure StrtoullResult where
  value : Nat
  converted : Bool
  erange : Bool
deriving DecidableEq, Repr

/-- Largest value of `unsigned long long`. -/
def ULLONG_MAX : Nat := 2 ^ 64 - 1

/-- Model of `strtoull(s, &eptr, 10)`: skip C-locale whitespace, accept an
optional sign, then consume decimal digits.  No digits means no
conversion; a magnitude above `ULLONG_MAX` sets `ERANGE`; a minus sign
wraps the value modulo `2^64`. -/
def strtoull10 (s : Str) : StrtoullResult :=
  let s1 := s.dropWhile isSpaceC
  let signAndRest : Bool × Str :=
    match s1 with
    | '-' :: t => (true, t)
    | '+' :: t => (false, t)
    | _ => (false, s1)
  let ds := signAndRest.2.takeWhile Char.isDigit
  if ds.isEmpty then ⟨0, false, false⟩
  else
    let m := ds.foldl (fun a c => a * 10 + (c.toNat - 48)) 0
    if ULLONG_MAX < m then ⟨ULLONG_MAX, true, true⟩
    else ⟨if signAndRest.1 then (2 ^ 64 - m) % 2 ^ 64 else m, true, false⟩

/-! ## Data model of the index -/

/-- One entry of the sequence table (`ImageSequenceDescription`): global
id, owning chunk id, source path, class id and the interned key. -/
structure ImageSequenceDescription where
  m_id : Nat
  m_chunkId : Nat
  m_path : Str
  m_classId : Nat
  m_keySequence : Nat
  m_keySample : Nat
  m_numberOfSamples : Nat
deriving DecidableEq, Repr

/-- Placeholder sequence description used as the `getD` default; a built
index never dereferences it. -/
def dfltSeq : ImageSequenceDescription := ⟨0, 0, [], 0, 0, 0, 0⟩

/-- One entry of the chunk table (`ImageChunkDescription`, field list
reconstructed from every use in the translation unit). -/
structure ImageChunkDescription where
  m_id : Nat
  m_numberOfSamples : Nat
  m_numberOfSequences : Nat
  m_startIndex : Nat
deriving DecidableEq, Repr

/-- Placeholder chunk description used as the `getD` default. -/
def dfltChunk : ImageChunkDescription := ⟨0, 0, 0, 0⟩

/-- The chunk produced by `std::make_shared<ImageChunkDescription>()`:
`make_shared` with no arguments value-initializes, so every field is
zero. -/
def initialChunk : ImageChunkDescription := ⟨0, 0, 0, 0⟩

/-- Byte-source routing state built by `RegisterByteReader`: the set of
container paths that own a reader (a shared handle is identified by its
container path, since exactly one reader exists per distinct container),
the per-container item registrations, and the sequence-to-handle map. -/
structure Registration where
  knownReaders : List Str
  readerSequences : List (Str × List (Str × Nat))
  m_readers : List (Nat × Str)
deriving DecidableEq, Repr

/-- Registration state before any sequence is registered. -/
def emptyRegistration : Registration := ⟨[], [], []⟩

/-- Replace `\` by `/` in an item path, as the
`std::replace(begin, end, '\\', '/')` call does. -/
def normalizeSeps (p : Str) : Str :=
  p.map fun c => if c = '\\' then '/' else c

/-- Model of `RegisterByteReader` (lines 391-429).  A path without `@` is
served by the default loose-file reader.  With zip support, the path is
split at the first `@`; `substr(atPos + 2)` skips the `@` *and the one
character after it* (the path separator); separators are normalized; a
shared reader is created once per container path; the item is recorded
under the container and the sequence routed to that handle.  Without zip
support any `@` path is a hard error. -/
def RegisterByteReader (useZip : Bool) (seqId : Nat) (path : Str) (reg : Registration) :
    Except BuildError Registration :=
  match path.findIdx? (fun c => c = '@') with
  | none => .ok reg
  | some atPos =>
    if useZip then
      let containerPath := path.take atPos
      let itemPath := normalizeSeps (path.drop (atPos + 2))
      let reg1 :=
        if (assocLookup (reg.knownReaders.map fun c => (c, ())) containerPath).isSome then reg
        else { reg with
          knownReaders := reg.knownReaders ++ [containerPath]
          readerSequences := assocSet reg.readerSequences containerPath [] }
      .ok { reg1 with
        readerSequences := assocSet reg1.readerSequences containerPath
          (assocSet (assocGetD reg1.readerSequences containerPath []) itemPath seqId)
        m_readers := assocSet reg1.m_readers seqId containerPath }
    else .error .unsupportedContainerFormat

/-- State threaded through `CreateSequenceDescriptions`. -/
structure BuildState where
  curId : Nat
  currentChunkId : Nat
  currentChunk : ImageChunkDescription
  m_chunks : List ImageChunkDescription
  m_imageSequences : List ImageSequenceDescription
  m_keyToSequence : List (Nat × Nat)
  reg : Registration
deriving DecidableEq, Repr

/-- Build state before the first line is processed. -/
def initialState : BuildState :=
  ⟨0, 0, initialChunk, [], [], [], emptyRegistration⟩

/-- The corpus collaborator, consumed read-only: the inclusion filter and
the string-interning registry. -/
structure Corpus where
  included : Str → Bool
  registry : Str → Nat

/-- Corpus that includes every key and interns everything to `0`. -/
def corpusAll : Corpus := ⟨fun _ => true, fun _ => 0⟩

/-- Modelled from the spec: `CHUNKID_MAX` comes from a header that is not
under `src/`; `ChunkIdType` is the chunk-id integer type and the spec
calls this bound "the maximum representable chunk-id range", so it is the
largest 32-bit unsigned value. -/
def CHUNKID_MAX : Nat := 2 ^ 32 - 1

/-- One iteration of the inner replica loop (lines 350-364): fill in the
description for the current id, record the key, append the description,
bump the chunk counters and register the byte reader. -/
def addOne (useZip : Bool) (corpus : Corpus) (pl : ParsedLine) (cid : Nat)
    (st : BuildState) : Except BuildError BuildState :=
  let d : ImageSequenceDescription :=
    { m_id := st.curId
      m_chunkId := st.currentChunkId
      m_path := pl.imagePath
      m_classId := cid
      m_keySequence := corpus.registry pl.sequenceKey
      m_keySample := 0
      m_numberOfSamples := 1 }
  let st1 : BuildState :=
    { st with
      curId := st.curId + 1
      m_keyToSequence :=
        assocSet st.m_keyToSequence d.m_keySequence st.m_imageSequences.length
      m_imageSequences := st.m_imageSequences ++ [d]
      currentChunk :=
        { st.currentChunk with
          m_numberOfSamples := st.currentChunk.m_numberOfSamples + 1
          m_numberOfSequences := st.currentChunk.m_numberOfSequences + 1 } }
  match RegisterByteReader useZip d.m_id pl.imagePath st.reg with
  | .error e => .error e
  | .ok reg' => .ok { st1 with reg := reg' }

/-- The inner replica loop run `n` times (`itemsPerLine` iterations). -/
def addReplicas (useZip : Bool) (corpus : Corpus) (pl : ParsedLine) (cid : Nat) :
    Nat → BuildState → Except BuildError BuildState
  | 0, st => .ok st
  | n + 1, st =>
    match addOne useZip corpus pl cid st with
    | .error e => .error e
    | .ok st' => addReplicas useZip corpus pl cid n st'

/-- Processing of one mapping-file line (loop body, lines 298-365): parse
the columns, skip excluded keys, parse and range-check the class id,
check the chunk-id budget, close the current chunk once it holds more
than 511 samples, then add one description per replica. -/
def processLine (useZip : Bool) (corpus : Corpus) (labelDimension itemsPerLine : Nat)
    (lineIndex : Nat) (line : Str) (st : BuildState) : Except BuildError BuildState :=
  match parseLine lineIndex line with
  | .error e => .error e
  | .ok pl =>
    if ¬ corpus.included pl.sequenceKey then .ok st
    else
      let r := strtoull10 pl.classId
      if r.converted = false ∨ r.erange = true then .error (.cannotParseLabel lineIndex)
      else if labelDimension ≤ r.value then .error (.invalidClassId lineIndex r.value)
      else if CHUNKID_MAX < st.curId + itemsPerLine then .error .maxChunksExceeded
      else
        let st1 : BuildState :=
          if 511 < st.currentChunk.m_numberOfSamples then
            { st with
              m_chunks := st.m_chunks ++ [st.currentChunk]
              currentChunkId := st.currentChunkId + 1
              currentChunk :=
                ⟨st.currentChunkId + 1, 0, 0, st.m_imageSequences.length⟩ }
          else st
        addReplicas useZip corpus pl r.value itemsPerLine st1

/-- The whole line loop, carrying the running line index. -/
def buildLoop (useZip : Bool) (corpus : Corpus) (labelDimension itemsPerLine : Nat) :
    Nat → List Str → BuildState → Except BuildError BuildState
  | _, [], st => .ok st
  | i, l :: ls, st =>
    match processLine useZip corpus labelDimension itemsPerLine i l st with
    | .error e => .error e
    | .ok st' => buildLoop useZip corpus labelDimension itemsPerLine (i + 1) ls st'

/-- Model of `CreateSequenceDescriptions` (lines 276-383): run the line
loop from the initial state and flush the trailing chunk when it is
non-empty.  The final per-container `Register` calls publish data already
present in `reg.readerSequences` and change no observable state here. -/
def CreateSequenceDescriptions (useZip : Bool) (corpus : Corpus) (lines : List Str)
    (labelDimension : Nat) (isMultiCrop : Bool) : Except BuildError BuildState :=
  let itemsPerLine := if isMultiCrop then 10 else 1
  match buildLoop useZip corpus labelDimension itemsPerLine 0 lines initialState with
  | .error e => .error e
  | .ok st =>
    .ok
      (if 0 < st.currentChunk.m_numberOfSamples then
        { st with m_chunks := st.m_chunks ++ [st.currentChunk] }
      else st)

/-! ## Label generator (`TypedLabelGenerator`, lines 35-61) -/

/-- Element types of the reader interface that this unit uses. -/
inductive ElementType where
  | tfloat
  | tdouble
  | tuchar
  | tend
deriving DecidableEq, Repr

/-- Error raised by the `TypedLabelGenerator` constructor. -/
inductive ConfigError where
  | labelDimensionOverflow
deriving DecidableEq, Repr

/-- Modelled from the spec: `IndexType` is declared in a header that is
not under `src/`; the spec calls its bound "the maximum representable
index type" and the index type is a signed 32-bit integer, so the bound is
`2^31 - 1`. -/
def IndexTypeMax : Nat := 2 ^ 31 - 1

/-- State of a `TypedLabelGenerator`: the constant `1` of the element
type (exactly representable in both float widths, kept as a natural
number) and the iota-filled index array. -/
structure TypedLabelGenerator where
  labelDimension : Nat
  m_value : Nat
  m_indices : List Nat
deriving DecidableEq, Repr

/-- The `TypedLabelGenerator` constructor (lines 39-47): reject a label
dimension above the index-type bound, otherwise fill `m_indices` with
`iota` starting from zero. -/
def mkTypedLabelGenerator (labelDimension : Nat) :
    Except ConfigError TypedLabelGenerator :=
  if IndexTypeMax < labelDimension then .error .labelDimensionOverflow
  else .ok ⟨labelDimension, 1, List.range labelDimension⟩

/-- The sparse content written by `CreateLabelFor` (lines 49-56): one
segment with one nonzero, the value pointer exposing `m_value`, and the
index pointer exposing `m_indices` from position `classId` on (one entry
is read, since the nonzero count is one). -/
structure SparseLabelCore where
  m_nnzCounts : List Nat
  m_totalNnzCount : Nat
  m_values : List Nat
  m_indices : List Nat
deriving DecidableEq, Repr

/-- Model of `TypedLabelGenerator::CreateLabelFor`. -/
def CreateLabelFor (g : TypedLabelGenerator) (classId : Nat) : SparseLabelCore :=
  { m_nnzCounts := [1]
    m_totalNnzCount := 1
    m_values := [g.m_value]
    m_indices := (g.m_indices.drop classId).take 1 }

/-- Dense reading of the sparse label: the value stored at coordinate
`i`, zero when `i` is not among the exposed indices. -/
def labelEntry (lbl : SparseLabelCore) (i : Nat) : Nat :=
  if lbl.m_indices.contains i then lbl.m_values.getD 0 0 else 0

/-! ## Key-based lookup (`GetSequenceDescriptionByKey`, lines 460-471) -/

/-- Model of `GetSequenceDescriptionByKey`: `none` is the `false` return
(out-parameter untouched), `some` is the `true` return carrying the
looked-up description. -/
def GetSequenceDescriptionByKey (st : BuildState) (keySequence keySample : Nat) :
    Option ImageSequenceDescription :=
  match assocLookup st.m_keyToSequence keySequence with
  | none => none
  | some idx =>
    if keySample ≠ 0 then none
    else some (st.m_imageSequences.getD idx dfltSeq)

/-! ## Byte acquisition and chunk loading -/

/-- The observable file store: loose files by path, and - modelled from
the spec, since `ZipByteReader` is not under `src/` - container entries
by container path and in-container item path (`readItem`). -/
structure FileSystem where
  fileBytes : Str → Option (List Nat)
  zipEntryBytes : Str → Str → Option (List Nat)

/-- Read-time failure: the path or container entry does not resolve
(`boost::interprocess` throwing on a missing file, or a missing zip
entry). -/
inductive ReadError where
  | notFound (path : Str)
deriving DecidableEq, Repr

/-- Model of `FileByteReader::Read` (lines 455-458): a memory-mapped read
of the loose file, failing when the file does not exist. -/
def FileByteReader_Read (fs : FileSystem) (path : Str) : Except ReadError (List Nat) :=
  match fs.fileBytes path with
  | some b => .ok b
  | none => .error (.notFound path)

/-- Modelled from the spec: `ZipByteReader::Read` is not under `src/`;
per the spec the container collaborator serves the registered item path
of the sequence (`readItem(itemPath) -> bytes`). -/
def ZipByteReader_Read (fs : FileSystem) (items : List (Str × Nat))
    (containerPath : Str) (seqId : Nat) : Except ReadError (List Nat) :=
  match items.find? (fun p => p.2 = seqId) with
  | none => .error (.notFound containerPath)
  | some p =>
    match fs.zipEntryBytes containerPath p.1 with
    | some b => .ok b
    | none => .error (.notFound p.1)

/-- Model of `ImageDataDeserializer::ReadImage` (lines 431-439): dispatch
to the container reader routed for this sequence id, defaulting to the
loose-file reader. -/
def ReadImage (fs : FileSystem) (reg : Registration) (seqId : Nat) (path : Str) :
    Except ReadError (List Nat) :=
  if reg.m_readers.isEmpty then FileByteReader_Read fs path
  else
    match assocLookup reg.m_readers seqId with
    | none => FileByteReader_Read fs path
    | some containerPath =>
      ZipByteReader_Read fs (assocGetD reg.readerSequences containerPath [])
        containerPath seqId

/-- A loaded chunk (`ImageChunk`): its id and the raw byte buffers of
every sequence in its range, fetched eagerly by the constructor. -/
structure ImageChunkState where
  m_id : Nat
  m_data : List (List Nat)
deriving DecidableEq, Repr

/-- The eager read loop of the `ImageChunk` constructor: read the
sequences at indices `idx, idx+1, ...` (`n` of them). -/
def loadRange (fs : FileSystem) (st : BuildState) : Nat → Nat →
    Except ReadError (List (List Nat))
  | _, 0 => .ok []
  | idx, n + 1 =>
    let seq := st.m_imageSequences.getD idx dfltSeq
    match ReadImage fs st.reg seq.m_id seq.m_path with
    | .error e => .error e
    | .ok b =>
      match loadRange fs st (idx + 1) n with
      | .error e => .error e
      | .ok bs => .ok (b :: bs)

/-- Model of the `ImageChunk` constructor (lines 80-94), reached through
`GetChunk`: pull the raw bytes of every sequence of the chunk. -/
def ImageChunk_load (fs : FileSystem) (st : BuildState) (chunkId : Nat) :
    Except ReadError ImageChunkState :=
  let c := st.m_chunks.getD chunkId dfltChunk
  match loadRange fs st c.m_startIndex c.m_numberOfSamples with
  | .error e => .error e
  | .ok bufs => .ok ⟨chunkId, bufs⟩

/-! ## Sequence materialization (`ImageChunk::GetSequence`, lines 96-158) -/

/-- OpenCV matrix depths that the element-type dispatch distinguishes. -/
inductive CVDepth where
  | cv8U
  | cv8S
  | cv16U
  | cv16S
  | cv32S
  | cv32F
  | cv64F
deriving DecidableEq, Repr

/-- A decoded `cv::Mat`: depth, geometry, continuity flag and an abstract
pixel payload. -/
structure DecodedImage where
  depth : CVDepth
  rows : Nat
  cols : Nat
  channels : Nat
  continuous : Bool
  pixels : List Nat
deriving DecidableEq, Repr

/-- Modelled from the spec: pixel-level decoding is out of scope ("an
opaque decode function"), so `cv::imdecode`, `cv::Mat::convertTo` and
`cv::Mat::clone` are opaque parameters; `decode` takes the raw bytes and
the grayscale flag, `convertPixels` reinterprets the payload at a target
depth, `clonePixels` compacts it. -/
structure Decoder where
  decode : List Nat → Bool → Option DecodedImage
  convertPixels : List Nat → CVDepth → List Nat
  clonePixels : List Nat → List Nat

/-- The deserializer object as `GetSequence` sees it. -/
structure Deserializer where
  build : BuildState
  m_grayscale : Bool
  m_featureElementType : ElementType
  m_labelElementType : ElementType
  m_labelGenerator : TypedLabelGenerator

/-- In the compositional-config constructor the feature stream is set up
with `features->m_elementType = ElementType::tend` ("each image can have
its own", line 187) and `m_featureElementType` is copied from it on line
189, so it holds `tend`. -/
def newConfigFeatureElementType : ElementType := ElementType.tend

/-- In the legacy constructor `m_featureElementType` captures the
configured feature element type (line 235) before the stream descriptor
is overwritten with `tend` (line 236). -/
def legacyConfigFeatureElementType (configured : ElementType) : ElementType :=
  configured

/-- Decode failure inside `GetSequence` (`cv::imdecode` produced no
data). -/
inductive GetSeqError where
  | decodeFailed (path : Str)
deriving DecidableEq, Repr

/-- The dense sample pushed by `GetSequence` (`DeserializedImage`): the
decoded matrix it keeps alive, the element type stamped on the sample,
identity and layout, the shared back-reference to the producing chunk
(kept as that chunk's id), and the retained raw buffer. -/
structure DenseSample where
  m_image : DecodedImage
  m_elementType : ElementType
  m_id : Nat
  m_numberOfSamples : Nat
  m_chunk : Nat
  m_buffer : List Nat
  layoutW : Nat
  layoutH : Nat
  layoutC : Nat
deriving DecidableEq, Repr

/-- The sparse label pushed by `GetSequence`: the generator-written core
plus sample count, element type and the shared chunk back-reference. -/
structure SparseLabelData where
  core : SparseLabelCore
  m_numberOfSamples : Nat
  m_elementType : ElementType
  m_chunk : Nat
deriving DecidableEq, Repr

/-- An entry of the `result` vector of `GetSequence`. -/
inductive SequenceDataEntry where
  | dense (d : DenseSample)
  | sparse (s : SparseLabelData)
deriving DecidableEq, Repr

/-- Placeholder entry used as the `getD` default in theorem statements. -/
def dfltEntry : SequenceDataEntry :=
  .sparse ⟨⟨[], 0, [], []⟩, 0, ElementType.tend, 0⟩

/-- The body of `GetSequence` up to the two `push_back` calls: locate the
buffer through the chunk table, decode it, run the element-type dispatch
(convert when the depth is none of `CV_32F`/`CV_64F`/`CV_8U`), compact a
non-continuous matrix, and build the dense sample and the sparse label. -/
def computeSequencePair (d : Deserializer) (dec : Decoder) (chunk : ImageChunkState)
    (sequenceId : Nat) : Except GetSeqError (DenseSample × SparseLabelData) :=
  let currentChunk := d.build.m_chunks.getD chunk.m_id dfltChunk
  let index := sequenceId - currentChunk.m_startIndex
  let imageSequence := d.build.m_imageSequences.getD sequenceId dfltSeq
  let data := chunk.m_data.getD index []
  match dec.decode data d.m_grayscale with
  | none => .error (.decodeFailed imageSequence.m_path)
  | some img0 =>
    let step : DecodedImage × ElementType :=
      if img0.depth = CVDepth.cv32F then (img0, ElementType.tfloat)
      else if img0.depth = CVDepth.cv64F then (img0, ElementType.tdouble)
      else if img0.depth = CVDepth.cv8U then (img0, ElementType.tuchar)
      else
        let target :=
          if d.m_featureElementType = ElementType.tfloat then CVDepth.cv32F
          else CVDepth.cv64F
        ({ img0 with depth := target, pixels := dec.convertPixels img0.pixels target },
          d.m_featureElementType)
    let img2 :=
      if step.1.continuous then step.1
      else { step.1 with pixels := dec.clonePixels step.1.pixels, continuous := true }
    let image : DenseSample :=
      { m_image := img2
        m_elementType := step.2
        m_id := imageSequence.m_id
        m_numberOfSamples := 1
        m_chunk := chunk.m_id
        m_buffer := data
        layoutW := img2.cols
        layoutH := img2.rows
        layoutC := img2.channels }
    let label : SparseLabelData :=
      { core := CreateLabelFor d.m_labelGenerator imageSequence.m_classId
        m_numberOfSamples := 1
        m_elementType := d.m_labelElementType
        m_chunk := chunk.m_id }
    .ok (image, label)

/-- Model of `ImageChunk::GetSequence`: compute the pair and append the
dense sample then the sparse label to the caller's result vector. -/
def GetSequence (d : Deserializer) (dec : Decoder) (chunk : ImageChunkState)
    (sequenceId : Nat) (result : List SequenceDataEntry) :
    Except GetSeqError (List SequenceDataEntry) :=
  match computeSequencePair d dec chunk sequenceId with
  | .error e => .error e
  | .ok p => .ok (result ++ [.dense p.1, .sparse p.2])

/-! ## Derived notions used by the statements -/

/-- Whether the line parses and passes the corpus inclusion filter; the
build consumes a line exactly when this holds. -/
def acceptedLine (corpus : Corpus) (lineIndex : Nat) (line : Str) : Bool :=
  match parseLine lineIndex line with
  | .ok pl => corpus.included pl.sequenceKey
  | .error _ => false

/-- Count of accepted lines starting at a given line index. -/
def acceptedCount (corpus : Corpus) : Nat → List Str → Nat
  | _, [] => 0
  | i, l :: ls =>
    (if acceptedLine corpus i l then 1 else 0) + acceptedCount corpus (i + 1) ls

/-- Sum of the per-chunk sequence counts. -/
def seqSum (cs : List ImageChunkDescription) : Nat :=
  (cs.map fun c => c.m_numberOfSequences).sum

/-- Invariant the build loop maintains between the closed chunks, the
open chunk and the sequence table. -/
structure ChunkInv (st : BuildState) : Prop where
  curChunkIdEq : st.currentChunkId = st.m_chunks.length
  curChunkId : st.currentChunk.m_id = st.currentChunkId
  ids : ∀ i, i < st.m_chunks.length → (st.m_chunks.getD i dfltChunk).m_id = i
  starts : ∀ i, i < st.m_chunks.length →
    (st.m_chunks.getD i dfltChunk).m_startIndex = seqSum (st.m_chunks.take i)
  samplesEq : ∀ c ∈ st.m_chunks, c.m_numberOfSamples = c.m_numberOfSequences
  curSamplesEq : st.currentChunk.m_numberOfSamples = st.currentChunk.m_numberOfSequences
  curStart : st.currentChunk.m_startIndex = seqSum st.m_chunks
  coverage : st.currentChunk.m_startIndex + st.currentChunk.m_numberOfSequences =
    st.m_imageSequences.length

/-- In single-view mode the open chunk never holds more than 512 samples
and every chunk closed by the loop holds exactly 512. -/
def SingleViewCap (st : BuildState) : Prop :=
  (∀ c ∈ st.m_chunks, c.m_numberOfSamples = 512) ∧
  st.currentChunk.m_numberOfSamples ≤ 512

/-- Every stored class id is below the label dimension. -/
def ClassIdBound (dim : Nat) (st : BuildState) : Prop :=
  ∀ d ∈ st.m_imageSequences, d.m_classId < dim

/-- The sequence table length is a multiple of ten and each aligned block
of ten replicas shares one chunk id. -/
def BlockAligned10 (st : BuildState) : Prop :=
  st.m_imageSequences.length % 10 = 0 ∧
  ∀ i, i < st.m_imageSequences.length →
    (st.m_imageSequences.getD i dfltSeq).m_chunkId =
    (st.m_imageSequences.getD (10 * (i / 10)) dfltSeq).m_chunkId

/-- Every key-map entry points inside the sequence table, at a
description carrying that key with sample index zero. -/
def KeyInv (st : BuildState) : Prop :=
  ∀ p ∈ st.m_keyToSequence, p.2 < st.m_imageSequences.length ∧
    (st.m_imageSequences.getD p.2 dfltSeq).m_keySequence = p.1 ∧
    (st.m_imageSequences.getD p.2 dfltSeq).m_keySample = 0

/-! ## Concrete objects used by the scenario statements -/

/-- Extract the state of a successful build (placeholder otherwise). -/
def stOf (r : Except BuildError BuildState) : BuildState :=
  match r with
  | .ok st => st
  | .error _ => initialState

/-- Extract the chunk table of a successful build. -/
def chunksOf (r : Except BuildError BuildState) : Option (List ImageChunkDescription) :=
  match r with
  | .ok st => some st.m_chunks
  | .error _ => none

/-- Whether a build succeeded. -/
def buildOk (r : Except BuildError BuildState) : Bool :=
  match r with
  | .ok _ => true
  | .error _ => false

/-- The 600-line single-view mapping file of the spec scenario: each line
is `i<TAB>0` (legacy two-column format, class id `0`). -/
def lines600 : List Str := List.replicate 600 ['i', '\t', '0']

/-- Index build over the 600-line mapping file, label dimension 1. -/
def build600 : Except BuildError BuildState :=
  CreateSequenceDescriptions false corpusAll lines600 1 false

/-- One-pass check that the description at position `i` carries id `i`
and chunk id 0 below the bound, 1 from the bound on. -/
def checkIds : Nat → Nat → List ImageSequenceDescription → Bool
  | _, _, [] => true
  | i, bound, d :: ds =>
    (d.m_id == i) && (d.m_chunkId == if i < bound then 0 else 1) &&
    checkIds (i + 1) bound ds

/-- Check over the 600-line build: 600 sequence ids, id equals position,
ids 0-511 in chunk 0 and 512-599 in chunk 1. -/
def seqIdsChunksOk600 : Bool :=
  match build600 with
  | .ok st =>
    (st.m_imageSequences.length == 600) && checkIds 0 512 st.m_imageSequences
  | .error _ => false

/-- Two-line mapping file used by several witnesses. -/
def linesW : List Str := [chars "a\t0", chars "b\t0"]

/-- Single-view build over the two-line file. -/
def stW : BuildState := stOf (CreateSequenceDescriptions false corpusAll linesW 1 false)

/-- Multi-view build over the two-line file. -/
def stMV : BuildState := stOf (CreateSequenceDescriptions false corpusAll linesW 1 true)

/-- Extract a successfully constructed label generator. -/
def gOf (r : Except ConfigError TypedLabelGenerator) : TypedLabelGenerator :=
  match r with
  | .ok g => g
  | .error _ => ⟨0, 1, []⟩

/-- Label generator for dimension 5 (the spec example). -/
def gen5 : TypedLabelGenerator := gOf (mkTypedLabelGenerator 5)

/-- Label generator for dimension 1. -/
def gen1 : TypedLabelGenerator := gOf (mkTypedLabelGenerator 1)

/-- The container path of claim C6's example, exactly as the spec writes
it: no separator between `@` and the item path. -/
def pathC6 : Str := chars "archive.zip@sub/dir/img.png"

/-- Item registrations recorded under `archive.zip` after registering the
C6 example path. -/
def itemsC6 : Option (List (Str × Nat)) :=
  match RegisterByteReader true 0 pathC6 emptyRegistration with
  | .ok r => some (assocGetD r.readerSequences (chars "archive.zip") [])
  | .error _ => none

/-- Extract a successful registration. -/
def regOf (r : Except BuildError Registration) : Registration :=
  match r with
  | .ok reg => reg
  | .error _ => emptyRegistration

/-- The registration produced for the C6 example path. -/
def regC6 : Registration := regOf (RegisterByteReader true 0 pathC6 emptyRegistration)

/-- File store whose only entry is `sub/dir/img.png` inside
`archive.zip`, exactly what the C6 claim promises to read. -/
def fsC6 : FileSystem :=
  ⟨fun _ => none,
   fun c i =>
     if c = chars "archive.zip" ∧ i = chars "sub/dir/img.png" then some [1, 2, 3] else none⟩

/-- A container-backed path in the form the code expects: a separator
character follows the `@`. -/
def pathW : Str := chars "a.zip" ++ '@' :: '/' :: chars "sub\\dir\\img.png"

/-- Registration produced for `pathW`. -/
def regW : Registration := regOf (RegisterByteReader true 0 pathW emptyRegistration)

/-- File store holding exactly the zip entry `sub/dir/img.png` of
`a.zip`. -/
def fsW : FileSystem :=
  ⟨fun _ => none,
   fun c i => if c = chars "a.zip" ∧ i = chars "sub/dir/img.png" then some [9, 9] else none⟩

/-- Empty file store: no loose files, no container entries. -/
def fs0 : FileSystem := ⟨fun _ => none, fun _ _ => none⟩

/-- Single-line single-view build whose image path is `img.png`. -/
def stOne : BuildState :=
  stOf (CreateSequenceDescriptions false corpusAll [chars "img.png\t0"] 1 false)

/-- Single-line single-view build whose image path is `missing.png`. -/
def stMissing : BuildState :=
  stOf (CreateSequenceDescriptions false corpusAll [chars "missing.png\t0"] 1 false)

/-- Whether the `missing.png` build succeeds (it never consults the file
store). -/
def buildMissingOk : Bool :=
  buildOk (CreateSequenceDescriptions false corpusAll [chars "missing.png\t0"] 1 false)

/-- Decoder whose decode step yields a 2x3 single-channel matrix of depth
`CV_16U` (none of the three directly-usable depths), with identity
conversion and cloning on the abstract payload. -/
def dec7 : Decoder :=
  ⟨fun _ _ => some ⟨CVDepth.cv16U, 2, 3, 1, true, [7]⟩, fun p _ => p ++ [0], fun p => p⟩

/-- Deserializer as the compositional-config constructor builds it:
`m_featureElementType` holds `tend`. -/
def d7 : Deserializer :=
  ⟨stOne, false, newConfigFeatureElementType, ElementType.tfloat, gen1⟩

/-- A loaded chunk holding one raw buffer. -/
def chunk7 : ImageChunkState := ⟨0, [[1]]⟩

/-- The pair produced for the C7 failing input. -/
def pairC7 : Except GetSeqError (DenseSample × SparseLabelData) :=
  computeSequencePair d7 dec7 chunk7 0

/-- Element type stamped on the dense sample of a produced pair. -/
def pairDenseElementType (r : Except GetSeqError (DenseSample × SparseLabelData)) :
    Option ElementType :=
  match r with
  | .ok p => some p.1.m_elementType
  | .error _ => none

/-- Depth of the matrix actually retained by the dense sample of a
produced pair. -/
def pairDenseDepth (r : Except GetSeqError (DenseSample × SparseLabelData)) :
    Option CVDepth :=
  match r with
  | .ok p => some p.1.m_image.depth
  | .error _ => none

/-- Decoder decoding any buffer to a continuous 8-bit matrix carrying the
buffer as payload. -/
def dec9 : Decoder :=
  ⟨fun b _ => some ⟨CVDepth.cv8U, 1, 1, 3, true, b⟩, fun p _ => p, fun p => p⟩

/-- Deserializer over the one-line build used by the read-side
witnesses. -/
def d9 : Deserializer :=
  ⟨stOne, false, ElementType.tfloat, ElementType.tfloat, gen1⟩

/-- A loaded chunk holding one three-byte raw buffer. -/
def chunk9 : ImageChunkState := ⟨0, [[1, 2, 3]]⟩

/-- Extract the result vector of a successful `GetSequence` call. -/
def lOf (r : Except GetSeqError (List SequenceDataEntry)) : List SequenceDataEntry :=
  match r with
  | .ok l => l
  | .error _ => []

/-- Result vector after one `GetSequence` call on `chunk9`. -/
def out9 : List SequenceDataEntry := lOf (GetSequence d9 dec9 chunk9 0 [])

/-- Whether a result entry is the dense image sample. -/
def isDenseEntry : SequenceDataEntry → Bool
  | .dense _ => true
  | .sparse _ => false

/-- Sample count reported by a result entry. -/
def entrySamples : SequenceDataEntry → Nat
  | .dense d => d.m_numberOfSamples
  | .sparse s => s.m_numberOfSamples

/-- Chunk back-reference held by a result entry. -/
def entryChunkRef : SequenceDataEntry → Nat
  | .dense d => d.m_chunk
  | .sparse s => s.m_chunk

/-! ## Helper lemmas about the association-list operations -/

theorem assocSet_mem {α β : Type} [DecidableEq α] {l : List (α × β)} {k : α} {v : β}
    {p : α × β} (h : p ∈ assocSet l k v) : p ∈ l ∨ p = (k, v) := by
  induction l with
  | nil => exact Or.inr (by simpa [assocSet] using h)
  | cons q rest ih =>
    obtain ⟨k', v'⟩ := q
    simp only [assocSet] at h
    by_cases hq : k' = k
    · rw [if_pos hq] at h
      rcases List.mem_cons.mp h with h | h
      · exact Or.inr h
      · exact Or.inl (List.mem_cons_of_mem _ h)
    · rw [if_neg hq] at h
      rcases List.mem_cons.mp h with h | h
      · exact Or.inl (h ▸ List.mem_cons_self _ _)
      · rcases ih h with h | h
        · exact Or.inl (List.mem_cons_of_mem _ h)
        · exact Or.inr h

theorem assocLookup_mem {α β : Type} [DecidableEq α] {l : List (α × β)} {k : α} {v : β}
    (h : assocLookup l k = some v) : (k, v) ∈ l := by
  induction l with
  | nil => simp [assocLookup] at h
  | cons q rest ih =>
    obtain ⟨k', v'⟩ := q
    simp only [assocLookup] at h
    by_cases hq : k' = k
    · rw [if_pos hq] at h
      injection h with h
      exact hq ▸ h ▸ List.mem_cons_self _ _
    · rw [if_neg hq] at h
      exact List.mem_cons_of_mem _ (ih h)

/-! ## Characterization of one inner-loop iteration (`addOne`) -/

theorem addOne_spec {useZip : Bool} {corpus : Corpus} {pl : ParsedLine} {cid : Nat}
    {st st' : BuildState} (h : addOne useZip corpus pl cid st = .ok st') :
    st'.curId = st.curId + 1 ∧
    st'.currentChunkId = st.currentChunkId ∧
    st'.m_chunks = st.m_chunks ∧
    st'.currentChunk.m_id = st.currentChunk.m_id ∧
    st'.currentChunk.m_startIndex = st.currentChunk.m_startIndex ∧
    st'.currentChunk.m_numberOfSamples = st.currentChunk.m_numberOfSamples + 1 ∧
    st'.currentChunk.m_numberOfSequences = st.currentChunk.m_numberOfSequences + 1 ∧
    st'.m_imageSequences = st.m_imageSequences ++
      [⟨st.curId, st.currentChunkId, pl.imagePath, cid, corpus.registry pl.sequenceKey, 0, 1⟩] ∧
    st'.m_keyToSequence = assocSet st.m_keyToSequence (corpus.registry pl.sequenceKey)
      st.m_imageSequences.length := by
  simp only [addOne] at h
  cases hr : RegisterByteReader useZip st.curId pl.imagePath st.reg with
  | error e => rw [hr] at h; cases h
  | ok reg' =>
    rw [hr] at h
    cases h
    exact ⟨rfl, rfl, rfl, rfl, rfl, rfl, rfl, rfl, rfl⟩

/-! ## Characterization of the replica loop (`addReplicas`) -/

theorem addReplicas_spec (useZip : Bool) (corpus : Corpus) (pl : ParsedLine) (cid : Nat) :
    ∀ (n : Nat) (st st' : BuildState),
      addReplicas useZip corpus pl cid n st = .ok st' →
      st'.curId = st.curId + n ∧
      st'.currentChunkId = st.currentChunkId ∧
      st'.m_chunks = st.m_chunks ∧
      st'.currentChunk.m_id = st.currentChunk.m_id ∧
      st'.currentChunk.m_startIndex = st.currentChunk.m_startIndex ∧
      st'.currentChunk.m_numberOfSamples = st.currentChunk.m_numberOfSamples + n ∧
      st'.currentChunk.m_numberOfSequences = st.currentChunk.m_numberOfSequences + n ∧
      ∃ ds : List ImageSequenceDescription,
        st'.m_imageSequences = st.m_imageSequences ++ ds ∧
        ds.length = n ∧
        ∀ d ∈ ds, d.m_chunkId = st.currentChunkId ∧ d.m_classId = cid ∧
          d.m_numberOfSamples = 1 ∧ d.m_keySample = 0 ∧
          d.m_keySequence = corpus.registry pl.sequenceKey ∧ d.m_path = pl.imagePath := by
  intro n
  induction n with
  | zero =>
    intro st st' h
    simp only [addReplicas] at h
    cases h
    exact ⟨rfl, rfl, rfl, rfl, rfl, rfl, rfl, [], by simp, rfl, by simp⟩
  | succ n ih =>
    intro st st' h
    simp only [addReplicas] at h
    cases h1 : addOne useZip corpus pl cid st with
    | error e => rw [h1] at h; cases h
    | ok st1 =>
      rw [h1] at h
      obtain ⟨hc, hck, hch, hid, hsi, hns, hnq, ds, hds, hlen, hall⟩ := ih st1 st' h
      obtain ⟨ac, ack, ach, aid, asi, ans, anq, aseq, _⟩ := addOne_spec h1
      refine ⟨by omega, by rw [hck, ack], by rw [hch, ach], by rw [hid, aid],
        by rw [hsi, asi], by omega, by omega,
        ⟨st.curId, st.currentChunkId, pl.imagePath, cid, corpus.registry pl.sequenceKey, 0, 1⟩ :: ds,
        ?_, ?_, ?_⟩
      · rw [hds, aseq, List.append_assoc]
        rfl
      · simp [hlen]
      · intro d hd
        rcases List.mem_cons.mp hd with hd | hd
        · subst hd
          exact ⟨rfl, rfl, rfl, rfl, rfl, rfl⟩
        · obtain ⟨h1', h2', h3', h4', h5', h6'⟩ := hall d hd
          exact ⟨h1'.trans ack, h2', h3', h4', h5', h6'⟩

/-- Generic invariant preservation along the replica loop. -/
theorem addReplicas_inv (useZip : Bool) (corpus : Corpus) (pl : ParsedLine) (cid : Nat)
    (P : BuildState → Prop)
    (hstep : ∀ st st', addOne useZip corpus pl cid st = .ok st' → P st → P st') :
    ∀ (n : Nat) (st st' : BuildState),
      addReplicas useZip corpus pl cid n st = .ok st' → P st → P st' := by
  intro n
  induction n with
  | zero =>
    intro st st' h hP
    simp only [addReplicas] at h
    cases h
    exact hP
  | succ n ih =>
    intro st st' h hP
    simp only [addReplicas] at h
    cases h1 : addOne useZip corpus pl cid st with
    | error e => rw [h1] at h; cases h
    | ok st1 =>
      rw [h1] at h
      exact ih st1 st' h (hstep st st1 h1 hP)

/-! ## Case analysis of one line of the build loop -/

theorem processLine_cases {useZip : Bool} {corpus : Corpus} {dim ipl i : Nat} {line : Str}
    {st st' : BuildState}
    (h : processLine useZip corpus dim ipl i line st = .ok st') :
    (st' = st ∧ acceptedLine corpus i line = false) ∨
    ∃ pl st1,
      parseLine i line = .ok pl ∧
      corpus.included pl.sequenceKey = true ∧
      (strtoull10 pl.classId).value < dim ∧
      ((st1 = st ∧ st.currentChunk.m_numberOfSamples ≤ 511) ∨
        (511 < st.currentChunk.m_numberOfSamples ∧
          st1 = { st with
            m_chunks := st.m_chunks ++ [st.currentChunk]
            currentChunkId := st.currentChunkId + 1
            currentChunk := ⟨st.currentChunkId + 1, 0, 0, st.m_imageSequences.length⟩ })) ∧
      addReplicas useZip corpus pl (strtoull10 pl.classId).value ipl st1 = .ok st' := by
  simp only [processLine] at h
  split at h
  next => cases h
  next pl heq =>
    split at h
    next hni =>
      cases h
      refine Or.inl ⟨rfl, ?_⟩
      have hf : corpus.included pl.sequenceKey = false := by
        revert hni
        cases corpus.included pl.sequenceKey <;> simp
      simp only [acceptedLine, heq, hf]
    next hni =>
      have hinc : corpus.included pl.sequenceKey = true := not_not.mp hni
      split_ifs at h with hA hB hC hD
      · exact Or.inr ⟨pl, _, heq, hinc, by omega, Or.inr ⟨hD, rfl⟩, h⟩
      · exact Or.inr ⟨pl, st, heq, hinc, by omega, Or.inl ⟨rfl, by omega⟩, h⟩

/-- Generic invariant preservation along the whole line loop. -/
theorem buildLoop_inv (useZip : Bool) (corpus : Corpus) (dim ipl : Nat)
    (P : BuildState → Prop)
    (hstep : ∀ i line st st',
      processLine useZip corpus dim ipl i line st = .ok st' → P st → P st') :
    ∀ (lines : List Str) (i : Nat) (st st' : BuildState),
      buildLoop useZip corpus dim ipl i lines st = .ok st' → P st → P st' := by
  intro lines
  induction lines with
  | nil =>
    intro i st st' h hP
    simp only [buildLoop] at h
    cases h
    exact hP
  | cons l ls ih =>
    intro i st st' h hP
    simp only [buildLoop] at h
    cases h1 : processLine useZip corpus dim ipl i l st with
    | error e => rw [h1] at h; cases h
    | ok st1 =>
      rw [h1] at h
      exact ih (i + 1) st1 st' h (hstep i l st st1 h1 hP)

theorem processLine_length {useZip : Bool} {corpus : Corpus} {dim ipl i : Nat} {line : Str}
    {st st' : BuildState}
    (h : processLine useZip corpus dim ipl i line st = .ok st') :
    st'.m_imageSequences.length =
      st.m_imageSequences.length + (if acceptedLine corpus i line then ipl else 0) := by
  rcases processLine_cases h with ⟨rfl, hacc⟩ | ⟨pl, st1, hp, hinc, _, hst1, hadd⟩
  · rw [hacc]
    simp
  · have hacc : acceptedLine corpus i line = true := by
      simp [acceptedLine, hp, hinc]
    rw [hacc, if_pos rfl]
    obtain ⟨_, _, _, _, _, _, _, ds, hds, hlen, _⟩ :=
      addReplicas_spec useZip corpus pl _ ipl st1 st' hadd
    have hseq1 : st1.m_imageSequences = st.m_imageSequences := by
      rcases hst1 with ⟨rfl, _⟩ | ⟨_, rfl⟩ <;> rfl
    rw [hds, hseq1]
    simp [hlen]

theorem buildLoop_length (useZip : Bool) (corpus : Corpus) (dim ipl : Nat) :
    ∀ (lines : List Str) (i : Nat) (st st' : BuildState),
      buildLoop useZip corpus dim ipl i lines st = .ok st' →
      st'.m_imageSequences.length =
        st.m_imageSequences.length + ipl * acceptedCount corpus i lines := by
  intro lines
  induction lines with
  | nil =>
    intro i st st' h
    simp only [buildLoop] at h
    cases h
    simp [acceptedCount]
  | cons l ls ih =>
    intro i st st' h
    simp only [buildLoop] at h
    cases h1 : processLine useZip corpus dim ipl i l st with
    | error e => rw [h1] at h; cases h
    | ok st1 =>
      rw [h1] at h
      have hl := processLine_length h1
      have h2 := ih (i + 1) st1 st' h
      simp only [acceptedCount]
      by_cases ha : acceptedLine corpus i l = true
      · rw [ha, if_pos rfl] at hl
        rw [if_pos ha, Nat.mul_add, Nat.mul_one]
        omega
      · have ha' : acceptedLine corpus i l = false := by
          revert ha
          cases acceptedLine corpus i l <;> simp
        rw [ha'] at hl
        rw [ha']
        simp only [Bool.false_eq_true, if_false, Nat.mul_add, Nat.mul_zero] at hl ⊢
        omega

/-! ## The chunk-partition invariant (claim C1) -/

theorem getD_mem_of_lt {α : Type} {l : List α} {n : Nat} (h : n < l.length) (d : α) :
    l.getD n d ∈ l := by
  rw [List.getD_eq_getElem l d h]
  exact List.getElem_mem h

theorem seqSum_append (l1 l2 : List ImageChunkDescription) :
    seqSum (l1 ++ l2) = seqSum l1 + seqSum l2 := by
  simp [seqSum]

theorem chunkInv_initial : ChunkInv initialState := by
  refine ⟨rfl, rfl, ?_, ?_, ?_, rfl, rfl, rfl⟩
  · intro i hi
    simp [initialState] at hi
  · intro i hi
    simp [initialState] at hi
  · intro c hc
    simp [initialState] at hc

/-- Closing the open chunk preserves the per-chunk facts and makes the
closed chunks cover the whole sequence table. -/
theorem chunkInv_append {st : BuildState} (inv : ChunkInv st) :
    (∀ i, i < (st.m_chunks ++ [st.currentChunk]).length →
      ((st.m_chunks ++ [st.currentChunk]).getD i dfltChunk).m_id = i ∧
      ((st.m_chunks ++ [st.currentChunk]).getD i dfltChunk).m_startIndex =
        seqSum ((st.m_chunks ++ [st.currentChunk]).take i) ∧
      ((st.m_chunks ++ [st.currentChunk]).getD i dfltChunk).m_numberOfSamples =
        ((st.m_chunks ++ [st.currentChunk]).getD i dfltChunk).m_numberOfSequences) ∧
    seqSum (st.m_chunks ++ [st.currentChunk]) = st.m_imageSequences.length := by
  constructor
  · intro i hi
    rw [List.length_append, List.length_singleton] at hi
    rcases Nat.lt_or_ge i st.m_chunks.length with hlt | hge
    · rw [List.getD_append _ _ _ _ hlt,
        List.take_append_of_le_length (Nat.le_of_lt hlt)]
      exact ⟨inv.ids i hlt, inv.starts i hlt,
        inv.samplesEq _ (getD_mem_of_lt hlt _)⟩
    · have hiL : i = st.m_chunks.length := by omega
      subst hiL
      rw [List.getD_append_right _ _ _ _ (Nat.le_refl _), Nat.sub_self,
        List.take_append_of_le_length (Nat.le_refl _), List.take_length]
      refine ⟨?_, ?_, inv.curSamplesEq⟩
      · exact inv.curChunkId.trans inv.curChunkIdEq
      · exact inv.curStart
  · rw [seqSum_append]
    have h1 : seqSum [st.currentChunk] = st.currentChunk.m_numberOfSequences := by
      simp [seqSum]
    have h2 := inv.curStart
    have h3 := inv.coverage
    omega

theorem processLine_chunkInv {useZip : Bool} {corpus : Corpus} {dim ipl i : Nat}
    {line : Str} {st st' : BuildState}
    (h : processLine useZip corpus dim ipl i line st = .ok st')
    (inv : ChunkInv st) : ChunkInv st' := by
  rcases processLine_cases h with ⟨rfl, _⟩ | ⟨pl, st1, _, _, _, hst1, hadd⟩
  · exact inv
  · have inv1 : ChunkInv st1 := by
      rcases hst1 with ⟨rfl, _⟩ | ⟨hgt, rfl⟩
      · exact inv
      · obtain ⟨hper, htot⟩ := chunkInv_append inv
        refine ⟨?_, rfl, ?_, ?_, ?_, rfl, ?_, ?_⟩
        · simp [inv.curChunkIdEq]
        · intro j hj
          exact (hper j hj).1
        · intro j hj
          exact (hper j hj).2.1
        · intro c hc
          rcases List.mem_append.mp hc with hc | hc
          · exact inv.samplesEq c hc
          · rw [List.mem_singleton.mp hc]
            exact inv.curSamplesEq
        · exact htot.symm
        · simp
    obtain ⟨_, hck, hch, hid, hsi, hns, hnq, ds, hds, hlen, _⟩ :=
      addReplicas_spec useZip corpus pl _ ipl st1 st' hadd
    refine ⟨?_, ?_, ?_, ?_, ?_, ?_, ?_, ?_⟩
    · rw [hck, hch]
      exact inv1.curChunkIdEq
    · rw [hid, hck]
      exact inv1.curChunkId
    · rw [hch]
      exact inv1.ids
    · rw [hch]
      exact inv1.starts
    · rw [hch]
      exact inv1.samplesEq
    · have hce := inv1.curSamplesEq
      omega
    · rw [hsi, hch]
      exact inv1.curStart
    · have hcov := inv1.coverage
      rw [hsi, hnq, hds, List.length_append, hlen]
      omega

/-- Partition facts about every successfully built index: chunk ids are
their positions, each chunk starts where the previous ones end, sample
and sequence counts agree, and the chunks cover the sequence table
exactly. -/
theorem createSeq_partition {useZip : Bool} {corpus : Corpus} {lines : List Str}
    {dim : Nat} {mc : Bool} {st : BuildState}
    (h : CreateSequenceDescriptions useZip corpus lines dim mc = .ok st) :
    (∀ i, i < st.m_chunks.length →
      (st.m_chunks.getD i dfltChunk).m_id = i ∧
      (st.m_chunks.getD i dfltChunk).m_startIndex = seqSum (st.m_chunks.take i) ∧
      (st.m_chunks.getD i dfltChunk).m_numberOfSamples =
        (st.m_chunks.getD i dfltChunk).m_numberOfSequences) ∧
    seqSum st.m_chunks = st.m_imageSequences.length := by
  simp only [CreateSequenceDescriptions] at h
  split at h
  next => cases h
  next st0 heq =>
    have inv0 : ChunkInv st0 :=
      buildLoop_inv useZip corpus dim _ ChunkInv
        (fun _ _ _ _ hp hP => processLine_chunkInv hp hP)
        lines 0 initialState st0 heq chunkInv_initial
    cases h
    split
    next hpos => exact chunkInv_append inv0
    next hpos =>
      refine ⟨?_, ?_⟩
      · intro i hi
        exact ⟨inv0.ids i hi, inv0.starts i hi,
          inv0.samplesEq _ (getD_mem_of_lt hi _)⟩
      · have hce := inv0.curSamplesEq
        have hcov := inv0.coverage
        have hcs := inv0.curStart
        omega

theorem processLine_singleViewCap {useZip : Bool} {corpus : Corpus} {dim i : Nat}
    {line : Str} {st st' : BuildState}
    (h : processLine useZip corpus dim 1 i line st = .ok st')
    (inv : SingleViewCap st) : SingleViewCap st' := by
  rcases processLine_cases h with ⟨rfl, _⟩ | ⟨pl, st1, _, _, _, hst1, hadd⟩
  · exact inv
  · obtain ⟨_, _, hch, _, _, hns, _, _, _, _⟩ :=
      addReplicas_spec useZip corpus pl _ 1 st1 st' hadd
    rcases hst1 with ⟨rfl, hle⟩ | ⟨hgt, rfl⟩
    · refine ⟨?_, ?_⟩
      · rw [hch]
        exact inv.1
      · omega
    · refine ⟨?_, ?_⟩
      · rw [hch]
        intro c hc
        rcases List.mem_append.mp hc with hc | hc
        · exact inv.1 c hc
        · rw [List.mem_singleton.mp hc]
          have := inv.2
          omega
      · simp only [] at hns
        omega

/-- All chunks of a built single-view index, except possibly the trailing
one, hold exactly 512 samples. -/
theorem createSeq_singleViewCap {useZip : Bool} {corpus : Corpus} {lines : List Str}
    {dim : Nat} {st : BuildState}
    (h : CreateSequenceDescriptions useZip corpus lines dim false = .ok st) :
    ∀ i, i + 1 < st.m_chunks.length →
      (st.m_chunks.getD i dfltChunk).m_numberOfSamples = 512 := by
  simp only [CreateSequenceDescriptions] at h
  split at h
  next => cases h
  next st0 heq =>
    have inv0 : SingleViewCap st0 :=
      buildLoop_inv useZip corpus dim _ SingleViewCap
        (fun _ _ _ _ hp hP => processLine_singleViewCap hp hP)
        lines 0 initialState st0 heq ⟨by intro c hc; simp [initialState] at hc, by simp [initialState, initialChunk]⟩
    cases h
    split
    next hpos =>
      intro i hi
      rw [List.length_append, List.length_singleton] at hi
      have hlt : i < st0.m_chunks.length := by omega
      rw [List.getD_append _ _ _ _ hlt]
      exact inv0.1 _ (getD_mem_of_lt hlt _)
    next hpos =>
      intro i hi
      exact inv0.1 _ (getD_mem_of_lt (by omega) _)

/-! ## Class-id validation (claim C2) -/

theorem processLine_parse_error {useZip : Bool} {corpus : Corpus} {dim ipl i : Nat}
    {line : Str} {st : BuildState} {pl : ParsedLine}
    (hp : parseLine i line = .ok pl)
    (hinc : corpus.included pl.sequenceKey = true)
    (hbad : (strtoull10 pl.classId).converted = false ∨ (strtoull10 pl.classId).erange = true) :
    processLine useZip corpus dim ipl i line st = .error (.cannotParseLabel i) := by
  simp only [processLine, hp]
  rw [if_neg (not_not_intro hinc), if_pos hbad]

theorem processLine_range_error {useZip : Bool} {corpus : Corpus} {dim ipl i : Nat}
    {line : Str} {st : BuildState} {pl : ParsedLine}
    (hp : parseLine i line = .ok pl)
    (hinc : corpus.included pl.sequenceKey = true)
    (hconv : (strtoull10 pl.classId).converted = true)
    (her : (strtoull10 pl.classId).erange = false)
    (hge : dim ≤ (strtoull10 pl.classId).value) :
    processLine useZip corpus dim ipl i line st =
      .error (.invalidClassId i (strtoull10 pl.classId).value) := by
  simp only [processLine, hp]
  rw [if_neg (not_not_intro hinc), if_neg (by simp [hconv, her]), if_pos hge]

theorem processLine_classIdBound {useZip : Bool} {corpus : Corpus} {dim ipl i : Nat}
    {line : Str} {st st' : BuildState}
    (h : processLine useZip corpus dim ipl i line st = .ok st')
    (inv : ClassIdBound dim st) : ClassIdBound dim st' := by
  rcases processLine_cases h with ⟨rfl, _⟩ | ⟨pl, st1, _, _, hv, hst1, hadd⟩
  · exact inv
  · obtain ⟨_, _, _, _, _, _, _, ds, hds, _, hall⟩ :=
      addReplicas_spec useZip corpus pl _ ipl st1 st' hadd
    have hseq1 : st1.m_imageSequences = st.m_imageSequences := by
      rcases hst1 with ⟨rfl, _⟩ | ⟨_, rfl⟩ <;> rfl
    intro d hd
    rw [hds, hseq1] at hd
    rcases List.mem_append.mp hd with hd | hd
    · exact inv d hd
    · rw [(hall d hd).2.1]
      exact hv

theorem createSeq_classIdBound {useZip : Bool} {corpus : Corpus} {lines : List Str}
    {dim : Nat} {mc : Bool} {st : BuildState}
    (h : CreateSequenceDescriptions useZip corpus lines dim mc = .ok st) :
    ∀ d ∈ st.m_imageSequences, d.m_classId < dim := by
  simp only [CreateSequenceDescriptions] at h
  split at h
  next => cases h
  next st0 heq =>
    have inv0 : ClassIdBound dim st0 :=
      buildLoop_inv useZip corpus dim _ (ClassIdBound dim)
        (fun _ _ _ _ hp hP => processLine_classIdBound hp hP)
        lines 0 initialState st0 heq (by intro d hd; simp [initialState] at hd)
    cases h
    split
    next => exact inv0
    next => exact inv0

theorem processLine_classId_exact {useZip : Bool} {corpus : Corpus} {dim ipl i : Nat}
    {line : Str} {st st' : BuildState} {pl : ParsedLine}
    (h : processLine useZip corpus dim ipl i line st = .ok st')
    (hp : parseLine i line = .ok pl) :
    ∀ d ∈ st'.m_imageSequences, d ∈ st.m_imageSequences ∨
      d.m_classId = (strtoull10 pl.classId).value := by
  rcases processLine_cases h with ⟨rfl, _⟩ | ⟨pl', st1, hp', _, _, hst1, hadd⟩
  · intro d hd
    exact Or.inl hd
  · have hpl : pl' = pl := by
      rw [hp] at hp'
      injection hp' with hpl
      exact hpl.symm
    subst hpl
    obtain ⟨_, _, _, _, _, _, _, ds, hds, _, hall⟩ :=
      addReplicas_spec useZip corpus pl' _ ipl st1 st' hadd
    have hseq1 : st1.m_imageSequences = st.m_imageSequences := by
      rcases hst1 with ⟨rfl, _⟩ | ⟨_, rfl⟩ <;> rfl
    intro d hd
    rw [hds, hseq1] at hd
    rcases List.mem_append.mp hd with hd | hd
    · exact Or.inl hd
    · exact Or.inr (hall d hd).2.1

/-! ## Multi-view block structure (claim C4) -/

theorem processLine_blockAligned10 {useZip : Bool} {corpus : Corpus} {dim i : Nat}
    {line : Str} {st st' : BuildState}
    (h : processLine useZip corpus dim 10 i line st = .ok st')
    (inv : BlockAligned10 st) : BlockAligned10 st' := by
  rcases processLine_cases h with ⟨rfl, _⟩ | ⟨pl, st1, _, _, _, hst1, hadd⟩
  · exact inv
  · obtain ⟨_, hck, _, _, _, _, _, ds, hds, hlen, hall⟩ :=
      addReplicas_spec useZip corpus pl _ 10 st1 st' hadd
    have hseq1 : st1.m_imageSequences = st.m_imageSequences := by
      rcases hst1 with ⟨rfl, _⟩ | ⟨_, rfl⟩ <;> rfl
    obtain ⟨hmod, hblk⟩ := inv
    refine ⟨?_, ?_⟩
    · rw [hds, hseq1, List.length_append, hlen]
      omega
    · intro j hj
      rw [hds, hseq1] at hj ⊢
      rw [List.length_append, hlen] at hj
      rcases Nat.lt_or_ge j st.m_imageSequences.length with hjL | hjL
      · have h2 : 10 * (j / 10) < st.m_imageSequences.length := by omega
        rw [List.getD_append _ _ _ _ hjL, List.getD_append _ _ _ _ h2]
        exact hblk j hjL
      · have hk : 10 * (j / 10) = st.m_imageSequences.length := by omega
        rw [hk, List.getD_append_right _ _ _ _ hjL,
          List.getD_append_right _ _ _ _ (Nat.le_refl _), Nat.sub_self]
        have hm1 : ds.getD (j - st.m_imageSequences.length) dfltSeq ∈ ds :=
          getD_mem_of_lt (by omega) _
        have hm2 : ds.getD 0 dfltSeq ∈ ds := getD_mem_of_lt (by omega) _
        rw [(hall _ hm1).1, (hall _ hm2).1]

/-! ## Key-map soundness (claim C5) -/

theorem addOne_keyInv {useZip : Bool} {corpus : Corpus} {pl : ParsedLine} {cid : Nat}
    {st st' : BuildState}
    (h : addOne useZip corpus pl cid st = .ok st') (inv : KeyInv st) : KeyInv st' := by
  obtain ⟨_, _, _, _, _, _, _, hseq, hkey⟩ := addOne_spec h
  intro p hp
  rw [hkey] at hp
  rw [hseq]
  rcases assocSet_mem hp with hp | hp
  · obtain ⟨h1, h2, h3⟩ := inv p hp
    rw [List.getD_append _ _ _ _ h1]
    refine ⟨?_, h2, h3⟩
    rw [List.length_append]
    omega
  · subst hp
    rw [List.getD_append_right _ _ _ _ (Nat.le_refl _), Nat.sub_self]
    refine ⟨?_, rfl, rfl⟩
    rw [List.length_append]
    simp

theorem processLine_keyInv {useZip : Bool} {corpus : Corpus} {dim ipl i : Nat}
    {line : Str} {st st' : BuildState}
    (h : processLine useZip corpus dim ipl i line st = .ok st')
    (inv : KeyInv st) : KeyInv st' := by
  rcases processLine_cases h with ⟨rfl, _⟩ | ⟨pl, st1, _, _, _, hst1, hadd⟩
  · exact inv
  · have inv1 : KeyInv st1 := by
      rcases hst1 with ⟨rfl, _⟩ | ⟨_, rfl⟩
      · exact inv
      · exact inv
    exact addReplicas_inv useZip corpus pl _ KeyInv
      (fun _ _ h1 hP => addOne_keyInv h1 hP) ipl st1 st' hadd inv1

theorem createSeq_keyInv {useZip : Bool} {corpus : Corpus} {lines : List Str}
    {dim : Nat} {mc : Bool} {st : BuildState}
    (h : CreateSequenceDescriptions useZip corpus lines dim mc = .ok st) : KeyInv st := by
  simp only [CreateSequenceDescriptions] at h
  split at h
  next => cases h
  next st0 heq =>
    have inv0 : KeyInv st0 :=
      buildLoop_inv useZip corpus dim _ KeyInv
        (fun _ _ _ _ hp hP => processLine_keyInv hp hP)
        lines 0 initialState st0 heq (by intro p hp; simp [initialState] at hp)
    cases h
    split
    next => exact inv0
    next => exact inv0

/-! ## Container-path splitting (claim C6) -/

theorem findIdx?_atSign :
    ∀ (container : Str), '@' ∉ container → ∀ (rest : Str) (i : Nat),
      List.findIdx? (fun c => c = '@') (container ++ '@' :: rest) i =
        some (i + container.length) := by
  intro container
  induction container with
  | nil =>
    intro _ rest i
    simp [List.findIdx?_cons]
  | cons c cs ih =>
    intro h rest i
    have hc : ¬ (c = '@') := fun hcc => h (by simp [hcc])
    simp only [List.cons_append, List.findIdx?_cons, decide_eq_true_eq]
    rw [if_neg hc, ih (fun hm => h (List.mem_cons_of_mem _ hm)) rest (i + 1)]
    congr 1
    simp only [List.length_cons]
    omega

/-! ## Produced-pair structure (claims C9, C10) -/

theorem computeSequencePair_fields {d : Deserializer} {dec : Decoder}
    {chunk : ImageChunkState} {sid : Nat} {p : DenseSample × SparseLabelData}
    (h : computeSequencePair d dec chunk sid = .ok p) :
    p.1.m_numberOfSamples = 1 ∧ p.1.m_chunk = chunk.m_id ∧
    p.2.m_numberOfSamples = 1 ∧ p.2.m_chunk = chunk.m_id := by
  simp only [computeSequencePair] at h
  split at h
  next => cases h
  next img0 heq =>
    cases h
    exact ⟨rfl, rfl, rfl, rfl⟩

/-! ## Claim theorems -/

set_option maxRecDepth 100000
set_option maxHeartbeats 2000000

/-- C1: after a successful index build the chunk descriptions are
contiguous, non-overlapping partitions of the sequence table covering
exactly `[0, N)`: each chunk's id is its position, each chunk starts
where the previous chunks end, its sample and sequence counts agree, and
the counts sum to N.  A chunk is closed exactly when its sample count has
reached the 512 cap (in single view every chunk but the trailing one
holds exactly 512 samples), and the non-empty trailing chunk is flushed
at the end.  In particular the 600-line single-view mapping file yields
exactly two chunks, `(id 0, 512 samples, start 0)` and
`(id 1, 88 samples, start 512)`, with sequence ids 0-511 in chunk 0 and
512-599 in chunk 1. -/
theorem chunk_partition_c1 :
    (∀ (useZip : Bool) (corpus : Corpus) (lines : List Str) (dim : Nat) (mc : Bool)
      (st : BuildState),
      CreateSequenceDescriptions useZip corpus lines dim mc = .ok st →
      (∀ i, i < st.m_chunks.length →
        (st.m_chunks.getD i dfltChunk).m_id = i ∧
        (st.m_chunks.getD i dfltChunk).m_startIndex = seqSum (st.m_chunks.take i) ∧
        (st.m_chunks.getD i dfltChunk).m_numberOfSamples =
          (st.m_chunks.getD i dfltChunk).m_numberOfSequences) ∧
      seqSum st.m_chunks = st.m_imageSequences.length) ∧
    (∀ (useZip : Bool) (corpus : Corpus) (lines : List Str) (dim : Nat) (st : BuildState),
      CreateSequenceDescriptions useZip corpus lines dim false = .ok st →
      ∀ i, i + 1 < st.m_chunks.length →
        (st.m_chunks.getD i dfltChunk).m_numberOfSamples = 512) ∧
    chunksOf build600 = some [⟨0, 512, 512, 0⟩, ⟨1, 88, 88, 512⟩] ∧
    seqIdsChunksOk600 = true := by
  refine ⟨fun _ _ _ _ _ _ h => createSeq_partition h,
    fun _ _ _ _ _ h => createSeq_singleViewCap h, ?_, ?_⟩
  · decide
  · decide

theorem chunk_partition_c1_witness :
    seqSum stW.m_chunks = stW.m_imageSequences.length ∧
    (stW.m_chunks.getD 0 dfltChunk).m_id = 0 :=
  ⟨(chunk_partition_c1.1 false corpusAll linesW 1 false stW rfl).2,
   ((chunk_partition_c1.1 false corpusAll linesW 1 false stW rfl).1 0 (by decide)).1⟩

set_option maxRecDepth 512
set_option maxHeartbeats 200000

/-- C2: on an accepted line the build fails with the parse error when
`strtoull` converts nothing or overflows, and with the range error when
the parsed value reaches the label dimension; after any successful build
every stored sequence has `classId` strictly below the label dimension,
and the stored value is exactly the parsed one (never clamped). -/
theorem classid_validation_c2 :
    (∀ (useZip : Bool) (corpus : Corpus) (dim ipl i : Nat) (line : Str) (st : BuildState)
      (pl : ParsedLine),
      parseLine i line = .ok pl →
      corpus.included pl.sequenceKey = true →
      ((strtoull10 pl.classId).converted = false ∨ (strtoull10 pl.classId).erange = true) →
      processLine useZip corpus dim ipl i line st = .error (.cannotParseLabel i)) ∧
    (∀ (useZip : Bool) (corpus : Corpus) (dim ipl i : Nat) (line : Str) (st : BuildState)
      (pl : ParsedLine),
      parseLine i line = .ok pl →
      corpus.included pl.sequenceKey = true →
      (strtoull10 pl.classId).converted = true →
      (strtoull10 pl.classId).erange = false →
      dim ≤ (strtoull10 pl.classId).value →
      processLine useZip corpus dim ipl i line st =
        .error (.invalidClassId i (strtoull10 pl.classId).value)) ∧
    (∀ (useZip : Bool) (corpus : Corpus) (lines : List Str) (dim : Nat) (mc : Bool)
      (st : BuildState),
      CreateSequenceDescriptions useZip corpus lines dim mc = .ok st →
      ∀ d ∈ st.m_imageSequences, d.m_classId < dim) ∧
    (∀ (useZip : Bool) (corpus : Corpus) (dim ipl i : Nat) (line : Str)
      (st st' : BuildState) (pl : ParsedLine),
      processLine useZip corpus dim ipl i line st = .ok st' →
      parseLine i line = .ok pl →
      ∀ d ∈ st'.m_imageSequences, d ∈ st.m_imageSequences ∨
        d.m_classId = (strtoull10 pl.classId).value) :=
  ⟨fun _ _ _ _ _ _ _ _ hp hinc hbad => processLine_parse_error hp hinc hbad,
   fun _ _ _ _ _ _ _ _ hp hinc hconv her hge =>
     processLine_range_error hp hinc hconv her hge,
   fun _ _ _ _ _ _ h => createSeq_classIdBound h,
   fun _ _ _ _ _ _ _ _ _ h hp => processLine_classId_exact h hp⟩

theorem classid_validation_c2_witness :
    processLine false corpusAll 5 1 0 (chars "p\tx") initialState =
      .error (BuildError.cannotParseLabel 0) ∧
    processLine false corpusAll 5 1 0 (chars "p\t5") initialState =
      .error (BuildError.invalidClassId 0 5) :=
  ⟨classid_validation_c2.1 false corpusAll 5 1 0 (chars "p\tx") initialState
      ⟨natToChars 0, chars "p", chars "x"⟩ rfl rfl (by decide),
   classid_validation_c2.2.1 false corpusAll 5 1 0 (chars "p\t5") initialState
      ⟨natToChars 0, chars "p", chars "5"⟩ rfl rfl (by decide) (by decide) (by decide)⟩

/-- C3: for a generator built at any admissible label dimension and any
class id below it, `CreateLabelFor` exposes exactly one nonzero entry, at
index `classId`, with value 1, over the configured dimension. -/
theorem one_hot_label_c3 :
    ∀ (dim c : Nat) (g : TypedLabelGenerator),
      mkTypedLabelGenerator dim = .ok g → c < dim →
      (CreateLabelFor g c).m_indices = [c] ∧
      (CreateLabelFor g c).m_values = [1] ∧
      (CreateLabelFor g c).m_totalNnzCount = 1 ∧
      (CreateLabelFor g c).m_nnzCounts = [1] ∧
      g.labelDimension = dim ∧
      g.m_indices.length = dim ∧
      (∀ i, labelEntry (CreateLabelFor g c) i = if i = c then 1 else 0) := by
  intro dim c g hg hc
  have hg' : g = ⟨dim, 1, List.range dim⟩ := by
    simp only [mkTypedLabelGenerator] at hg
    split at hg
    next => cases hg
    next =>
      injection hg with hg
      exact hg.symm
  subst hg'
  have hlt : c < (List.range dim).length := by simpa using hc
  have hdrop : (List.range dim).drop c = c :: (List.range dim).drop (c + 1) := by
    rw [List.drop_eq_getElem_cons hlt, List.getElem_range c hlt]
  have hind : (CreateLabelFor ⟨dim, 1, List.range dim⟩ c).m_indices = [c] := by
    simp [CreateLabelFor, hdrop]
  refine ⟨hind, rfl, rfl, rfl, rfl, by simp, ?_⟩
  intro i
  by_cases hic : i = c
  · simp [labelEntry, CreateLabelFor, hdrop, hic]
  · simp [labelEntry, CreateLabelFor, hdrop, hic, Ne.symm hic]

theorem one_hot_label_c3_witness :
    (CreateLabelFor gen5 3).m_indices = [3] ∧
    (CreateLabelFor gen5 3).m_values = [1] ∧
    labelEntry (CreateLabelFor gen5 3) 3 = 1 ∧
    labelEntry (CreateLabelFor gen5 3) 0 = 0 := by
  obtain ⟨h1, h2, _, _, _, _, h7⟩ := one_hot_label_c3 5 3 gen5 rfl (by decide)
  exact ⟨h1, h2, by simpa using h7 3, by simpa using h7 0⟩

/-- C4: in multi-view mode the build generates exactly ten sequence ids
per accepted line, and every aligned block of ten replicas shares one
chunk id (replicas of one logical sample are never split across
chunks). -/
theorem multiview_replicas_c4 :
    ∀ (useZip : Bool) (corpus : Corpus) (lines : List Str) (dim : Nat) (st : BuildState),
      CreateSequenceDescriptions useZip corpus lines dim true = .ok st →
      st.m_imageSequences.length = 10 * acceptedCount corpus 0 lines ∧
      ∀ i, i < st.m_imageSequences.length →
        (st.m_imageSequences.getD i dfltSeq).m_chunkId =
        (st.m_imageSequences.getD (10 * (i / 10)) dfltSeq).m_chunkId := by
  intro useZip corpus lines dim st h
  simp only [CreateSequenceDescriptions] at h
  split at h
  next => cases h
  next st0 heq =>
    have hlen := buildLoop_length useZip corpus dim 10 lines 0 initialState st0 heq
    have inv0 : BlockAligned10 st0 :=
      buildLoop_inv useZip corpus dim 10 BlockAligned10
        (fun _ _ _ _ hp hP => processLine_blockAligned10 hp hP)
        lines 0 initialState st0 heq
        ⟨rfl, by intro i hi; simp [initialState] at hi⟩
    cases h
    split
    next =>
      refine ⟨?_, inv0.2⟩
      simpa [initialState] using hlen
    next =>
      refine ⟨?_, inv0.2⟩
      simpa [initialState] using hlen

theorem multiview_replicas_c4_witness :
    stMV.m_imageSequences.length = 10 * acceptedCount corpusAll 0 linesW ∧
    (stMV.m_imageSequences.getD 13 dfltSeq).m_chunkId =
      (stMV.m_imageSequences.getD (10 * (13 / 10)) dfltSeq).m_chunkId :=
  ⟨(multiview_replicas_c4 false corpusAll linesW 1 stMV rfl).1,
   (multiview_replicas_c4 false corpusAll linesW 1 stMV rfl).2 13 (by decide)⟩

/-- C5: on a built index, key-based lookup returns the stored description
exactly when the sample index is 0 and the key is present in the key map
(and the returned description carries that key with sample index 0);
otherwise it reports not-found through the optional result rather than
an error. -/
theorem key_lookup_c5 :
    ∀ (useZip : Bool) (corpus : Corpus) (lines : List Str) (dim : Nat) (mc : Bool)
      (st : BuildState),
      CreateSequenceDescriptions useZip corpus lines dim mc = .ok st →
      (∀ kseq ksample, ksample ≠ 0 →
        GetSequenceDescriptionByKey st kseq ksample = none) ∧
      (∀ kseq, assocLookup st.m_keyToSequence kseq = none →
        GetSequenceDescriptionByKey st kseq 0 = none) ∧
      (∀ kseq idx, assocLookup st.m_keyToSequence kseq = some idx →
        idx < st.m_imageSequences.length ∧
        GetSequenceDescriptionByKey st kseq 0 =
          some (st.m_imageSequences.getD idx dfltSeq) ∧
        (st.m_imageSequences.getD idx dfltSeq).m_keySequence = kseq ∧
        (st.m_imageSequences.getD idx dfltSeq).m_keySample = 0) := by
  intro useZip corpus lines dim mc st h
  have hkinv : KeyInv st := createSeq_keyInv h
  refine ⟨?_, ?_, ?_⟩
  · intro kseq ksample hks
    simp only [GetSequenceDescriptionByKey]
    cases hl : assocLookup st.m_keyToSequence kseq with
    | none => rfl
    | some idx => simp [hks]
  · intro kseq hl
    simp [GetSequenceDescriptionByKey, hl]
  · intro kseq idx hl
    obtain ⟨h1, h2, h3⟩ := hkinv (kseq, idx) (assocLookup_mem hl)
    exact ⟨h1, by simp [GetSequenceDescriptionByKey, hl], h2, h3⟩

theorem key_lookup_c5_witness :
    GetSequenceDescriptionByKey stW 0 1 = none ∧
    GetSequenceDescriptionByKey stW 0 0 =
      some (stW.m_imageSequences.getD 1 dfltSeq) :=
  ⟨(key_lookup_c5 false corpusAll linesW 1 false stW rfl).1 0 1 (by decide),
   ((key_lookup_c5 false corpusAll linesW 1 false stW rfl).2.2 0 1 (by decide)).2.1⟩

/-- C6 counterexample: on the claim's own example path
`archive.zip@sub/dir/img.png` (no separator after the `@`), the code's
`substr(atPos + 2)` drops the first character of the item path, so the
registered item is `ub/dir/img.png`, not `sub/dir/img.png`; reading the
sequence against a container whose entry lives at `sub/dir/img.png`
consequently fails with the not-found outcome instead of returning the
entry's bytes. -/
theorem container_item_split_cx_c6 :
    itemsC6 = some [(chars "ub/dir/img.png", 0)] ∧
    chars "ub/dir/img.png" ≠ chars "sub/dir/img.png" ∧
    ReadImage fsC6 regC6 0 pathC6 =
      .error (.notFound (chars "ub/dir/img.png")) := by
  refine ⟨?_, ?_, ?_⟩
  · decide
  · decide
  · rfl

/-- C6 amended: a container-backed path has the form
`containerPath@<sep>item/relative/path` - the character right after `@`
is a path separator and is skipped.  For such a path, registration splits
off the container path, normalizes `\` to `/` in the item path, records
the item under the (unique, shared) container handle, and a subsequent
read of that sequence returns exactly the container entry's bytes at the
registered item path. -/
theorem container_round_trip_c6 :
    ∀ (container : Str) (sep : Char) (item : Str) (seqId : Nat) (fs : FileSystem)
      (bytes : List Nat),
      '@' ∉ container →
      fs.zipEntryBytes container (normalizeSeps item) = some bytes →
      RegisterByteReader true seqId (container ++ '@' :: sep :: item) emptyRegistration =
        .ok ⟨[container], [(container, [(normalizeSeps item, seqId)])],
          [(seqId, container)]⟩ ∧
      ReadImage fs
        ⟨[container], [(container, [(normalizeSeps item, seqId)])], [(seqId, container)]⟩
        seqId (container ++ '@' :: sep :: item) = .ok bytes := by
  intro container sep item seqId fs bytes hat hfs
  have hidx : List.findIdx? (fun c => c = '@') (container ++ '@' :: sep :: item) 0 =
      some container.length := by
    rw [findIdx?_atSign container hat (sep :: item) 0, Nat.zero_add]
  constructor
  · have htake : (container ++ '@' :: sep :: item).take container.length = container := by
      rw [List.take_append_of_le_length (Nat.le_refl _), List.take_length]
    have hdrop : (container ++ '@' :: sep :: item).drop (container.length + 2) = item := by
      have hsplit : container ++ '@' :: sep :: item = (container ++ ['@', sep]) ++ item := by
        simp
      have hlen2 : (container ++ ['@', sep]).length = container.length + 2 := by
        simp
      rw [hsplit, ← hlen2, List.drop_left]
    simp only [RegisterByteReader, hidx, htake, hdrop]
    simp [assocSet, assocGetD, assocLookup, emptyRegistration]
  · simp [ReadImage, ZipByteReader_Read, assocGetD, assocLookup, hfs]

theorem container_round_trip_c6_witness :
    RegisterByteReader true 0 pathW emptyRegistration =
      .ok ⟨[chars "a.zip"], [(chars "a.zip", [(chars "sub/dir/img.png", 0)])],
        [(0, chars "a.zip")]⟩ ∧
    ReadImage fsW
      ⟨[chars "a.zip"], [(chars "a.zip", [(chars "sub/dir/img.png", 0)])],
        [(0, chars "a.zip")]⟩ 0 pathW = .ok [9, 9] :=
  container_round_trip_c6 (chars "a.zip") '/' (chars "sub\\dir\\img.png") 0 fsW [9, 9]
    (by decide) (by decide)

/-- C7, evaluated at the failing input: under the compositional-config
constructor `m_featureElementType` is `tend` (lines 187-189), so a
decoded image of depth `CV_16U` is converted to `CV_64F` - regardless of
the configured `float` precision - while the exposed sample's element
type is stamped `tend`, which matches neither the converted data nor any
floating type.  The claim's statement (conversion to the configured
default floating type, exposed type equal to the data's type) holds only
on the legacy-constructor path, which captures the configured type before
overwriting the stream descriptor. -/
theorem element_type_mismatch_c7 :
    newConfigFeatureElementType = ElementType.tend ∧
    pairDenseElementType pairC7 = some ElementType.tend ∧
    pairDenseDepth pairC7 = some CVDepth.cv64F ∧
    ElementType.tend ≠ ElementType.tdouble ∧
    legacyConfigFeatureElementType ElementType.tfloat = ElementType.tfloat := by
  refine ⟨rfl, ?_, ?_, by decide, rfl⟩
  · decide
  · decide

/-- C8 counterexample: with zip support compiled out, a mapping file
whose single line carries the container-style path `a@/b` makes the index
build itself fail with the unsupported-container error -
`RegisterByteReader` runs inside the build loop, so this failure is
raised at build time, not at read time as the claim states. -/
theorem unsupported_at_build_cx_c8 :
    CreateSequenceDescriptions false corpusAll [chars "a@/b\t0"] 1 false =
      .error BuildError.unsupportedContainerFormat := by
  rfl

/-- C8 amended: the NotFound half of the claim holds - the build never
consults the file store (the `missing.png` build succeeds although no
such file exists), and an unresolvable plain path is only discovered when
its chunk is loaded, failing the load with the not-found error for that
path.  The UnsupportedFormat half is inverted: a container-style path
without zip support fails during index build, inside
`RegisterByteReader`. -/
theorem read_time_notfound_c8 :
    (∀ (seqId : Nat) (path : Str) (reg : Registration) (atPos : Nat),
      List.findIdx? (fun c => c = '@') path 0 = some atPos →
      RegisterByteReader false seqId path reg =
        .error BuildError.unsupportedContainerFormat) ∧
    buildMissingOk = true ∧
    (∀ (fs : FileSystem) (st : BuildState) (chunkId : Nat),
      st.reg.m_readers = [] →
      0 < (st.m_chunks.getD chunkId dfltChunk).m_numberOfSamples →
      fs.fileBytes ((st.m_imageSequences.getD
        (st.m_chunks.getD chunkId dfltChunk).m_startIndex dfltSeq).m_path) = none →
      ImageChunk_load fs st chunkId = .error (.notFound ((st.m_imageSequences.getD
        (st.m_chunks.getD chunkId dfltChunk).m_startIndex dfltSeq).m_path))) := by
  refine ⟨?_, by decide, ?_⟩
  · intro seqId path reg atPos hidx
    simp [RegisterByteReader, hidx]
  · intro fs st chunkId hemp hpos hnone
    simp only [ImageChunk_load]
    cases hn : (st.m_chunks.getD chunkId dfltChunk).m_numberOfSamples with
    | zero => omega
    | succ n =>
      simp only [hn, loadRange, ReadImage, hemp, List.isEmpty_nil, if_true,
        FileByteReader_Read, hnone]

theorem read_time_notfound_c8_witness :
    RegisterByteReader false 7 (chars "a.zip@/x") emptyRegistration =
      .error BuildError.unsupportedContainerFormat ∧
    ImageChunk_load fs0 stMissing 0 =
      .error (.notFound (chars "missing.png")) := by
  refine ⟨read_time_notfound_c8.1 7 (chars "a.zip@/x") emptyRegistration 5 (by decide), ?_⟩
  exact read_time_notfound_c8.2.2 fs0 stMissing 0 (by decide) (by decide) (by decide)

/-- C9: `GetSequence` is deterministic and idempotent - a successful call
appends two entries to the result vector, and repeating the call for the
same chunk object and sequence id appends an identical pair (bit-identical
decoded dense output and identical label content), the chunk state being
unchanged by the first call. -/
theorem get_sequence_idempotent_c9 :
    ∀ (d : Deserializer) (dec : Decoder) (chunk : ImageChunkState) (sid : Nat)
      (acc out : List SequenceDataEntry),
      GetSequence d dec chunk sid acc = .ok out →
      out.length = acc.length + 2 ∧
      out.take acc.length = acc ∧
      GetSequence d dec chunk sid out = .ok (out ++ out.drop acc.length) := by
  intro d dec chunk sid acc out h
  simp only [GetSequence] at h
  cases hp : computeSequencePair d dec chunk sid with
  | error e => rw [hp] at h; cases h
  | ok p =>
    rw [hp] at h
    cases h
    refine ⟨by simp, List.take_left _ _, ?_⟩
    simp [GetSequence, hp, List.drop_left]

theorem get_sequence_idempotent_c9_witness :
    out9.length = 0 + 2 ∧
    out9.take 0 = ([] : List SequenceDataEntry) ∧
    GetSequence d9 dec9 chunk9 0 out9 = .ok (out9 ++ out9.drop 0) :=
  get_sequence_idempotent_c9 d9 dec9 chunk9 0 [] out9 rfl

/-- C10: every successful `GetSequence` call appends exactly two entries
to the result vector, the dense image sample first and the sparse label
second; each entry reports exactly one sample and each holds the
back-reference to the producing chunk (the model of the
`shared_from_this` shared-ownership pointer that keeps the chunk
alive). -/
theorem get_sequence_two_entries_c10 :
    ∀ (d : Deserializer) (dec : Decoder) (chunk : ImageChunkState) (sid : Nat)
      (acc out : List SequenceDataEntry),
      GetSequence d dec chunk sid acc = .ok out →
      out.length = acc.length + 2 ∧
      out.take acc.length = acc ∧
      isDenseEntry (out.getD acc.length dfltEntry) = true ∧
      isDenseEntry (out.getD (acc.length + 1) dfltEntry) = false ∧
      entrySamples (out.getD acc.length dfltEntry) = 1 ∧
      entrySamples (out.getD (acc.length + 1) dfltEntry) = 1 ∧
      entryChunkRef (out.getD acc.length dfltEntry) = chunk.m_id ∧
      entryChunkRef (out.getD (acc.length + 1) dfltEntry) = chunk.m_id := by
  intro d dec chunk sid acc out h
  simp only [GetSequence] at h
  cases hp : computeSequencePair d dec chunk sid with
  | error e => rw [hp] at h; cases h
  | ok p =>
    rw [hp] at h
    cases h
    obtain ⟨h1, h2, h3, h4⟩ := computeSequencePair_fields hp
    have e0 : (acc ++ [SequenceDataEntry.dense p.1, SequenceDataEntry.sparse p.2]).getD
        acc.length dfltEntry = SequenceDataEntry.dense p.1 := by
      rw [List.getD_append_right _ _ _ _ (Nat.le_refl _), Nat.sub_self]
      rfl
    have e1 : (acc ++ [SequenceDataEntry.dense p.1, SequenceDataEntry.sparse p.2]).getD
        (acc.length + 1) dfltEntry = SequenceDataEntry.sparse p.2 := by
      rw [List.getD_append_right _ _ _ _ (by omega)]
      have hsub : acc.length + 1 - acc.length = 1 := by omega
      rw [hsub]
      rfl
    rw [e0, e1]
    exact ⟨by simp, List.take_left _ _, rfl, rfl, h1, h3, h2, h4⟩

theorem get_sequence_two_entries_c10_witness :
    isDenseEntry (out9.getD 0 dfltEntry) = true ∧
    isDenseEntry (out9.getD 1 dfltEntry) = false ∧
    entrySamples (out9.getD 0 dfltEntry) = 1 ∧
    entrySamples (out9.getD 1 dfltEntry) = 1 ∧
    entryChunkRef (out9.getD 0 dfltEntry) = chunk9.m_id ∧
    entryChunkRef (out9.getD 1 dfltEntry) = chunk9.m_id := by
  obtain ⟨_, _, h3, h4, h5, h6, h7, h8⟩ :=
    get_sequence_two_entries_c10 d9 dec9 chunk9 0 [] out9 rfl
  exact ⟨h3, h4, h5, h6, h7, h8⟩

end ImageDeserializer
